import Mathlib

/-!
A verification development for the `unison` UI-toolkit core: a shallow
embedding of the arena allocator (`src/unison/src/arena.rs`), the reactive
value/binding layer (`src/unison/src/reactivity.rs`), the state and change
tracking (`src/unison/src/state.rs`, `src/unison/src/page.rs`), and the
container draw / stack-distribution algorithm (`src/unison/src/container.rs`,
with the view-state machine of `src/unison-backend-wgpu/src/wgpu_backend.rs`).

Modelling conventions:
* Stored values are modelled abstractly as `Val` (size, alignment, payload)
  instead of raw bytes; a write stores the whole value at its start address.
* Raw pointers are modelled as (block uid, offset-within-block) pairs; block
  base addresses are assumed aligned to every value alignment in use (real
  allocations from `std::alloc::alloc` are at least 16-byte aligned, and the
  repository's own arena test relies on 8-alignment of block bases), so
  `ptr.add(off).align_offset(a) = (a - off % a) % a`.
* `usize`/`u32` arithmetic is modelled on `Nat`; subtractions that can
  underflow in the Rust code are modelled with explicit checks (an underflow
  is a debug-mode panic, rendered as `none`).
* The `f32` computation of the stack-distribution algorithm is modelled as
  exact rational arithmetic; the Rust `as u32` cast on a nonnegative float is
  `Int.floor` followed by `Int.toNat`. Concrete inputs used in theorems about
  it are chosen so that the `f32` computation is exact.
* Rust closures and trait objects (`Fn`, `Box<dyn LazyValue>`) are embedded
  as Lean functions.
-/

namespace Unison

/-- An abstract stored value: its layout (size and alignment, as produced by
`std::alloc::Layout::for_value`) together with an abstract payload standing
for its bit pattern. -/
structure Val where
  size : Nat
  align : Nat
  data : Nat
deriving DecidableEq, Repr, Inhabited

/-- `Ref<T>` from `arena.rs`: an arena identity together with the raw
address, modelled as a (block uid, offset) pair.  The phantom type parameter
of the Rust `Ref<T>` is dropped; the pointee is recovered through `Val`. -/
structure Ref where
  arena_id : Nat
  blockUid : Nat
  off : Nat
deriving DecidableEq, Repr, Inhabited

/-- Memory of an arena: block uid and byte offset to the value whose bytes
start there (`none` = never written by this model; a real read there would
be garbage). -/
def Mem : Type := Nat → Nat → Option Val

def writeMem (m : Mem) (u o : Nat) (v : Val) : Mem :=
  fun u' o' => if u' = u ∧ o' = o then some v else m u' o'

/-- `ptr.add(off).align_offset(align)` for a block base that is aligned to
`align` (see the modelling conventions above). -/
def alignOffset (off align : Nat) : Nat := (align - off % align) % align

/-- The arena of `arena.rs`.  `bs` is the `BLOCK_SIZE` const generic;
`blocks` is the list of block uids in `Vec` order (a uid stands for the
block's heap allocation, `nextUid` supplies fresh ones); `cur_block`,
`offset` and `arena_id` are the fields of the Rust struct. -/
structure Arena where
  bs : Nat
  arena_id : Nat
  blocks : List Nat
  nextUid : Nat
  cur_block : Nat
  offset : Nat
  mem : Mem

/-- `Arena::_new`: reads the global `ARENA_IDX` counter into `arena_id` and
then increments it.  The process-global atomic counter is threaded
explicitly: `ctr` is its current value, the second component its new one. -/
def Arena._new (bs ctr : Nat) : Arena × Nat :=
  (⟨bs, ctr, [], 0, 0, 0, fun _ _ => none⟩, ctr + 1)

/-- `Arena::alloc_block`: allocate a fresh block and push it to the block
list. -/
def Arena.alloc_block (a : Arena) : Arena :=
  { a with blocks := a.blocks ++ [a.nextUid], nextUid := a.nextUid + 1 }

/-- `Arena::new`: `_new` followed by one `alloc_block`. -/
def Arena.new (bs ctr : Nat) : Arena × Nat :=
  ((Arena._new bs ctr).1.alloc_block, (Arena._new bs ctr).2)

/-- `Arena::next_block`: advance the cursor; allocate a block if none is
left. -/
def Arena.next_block (a : Arena) : Arena :=
  let a' := { a with cur_block := a.cur_block + 1, offset := 0 }
  if (a'.blocks.get? a'.cur_block).isNone then a'.alloc_block else a'

/-- `self.blocks.insert(self.blocks.len()-1, x)` from the oversized branch of
`Arena::alloc`. -/
def insertBeforeLast (l : List Nat) (x : Nat) : List Nat :=
  l.take (l.length - 1) ++ x :: l.drop (l.length - 1)

/-- The uid of the block the cursor is on (`self.blocks[self.cur_block]`). -/
def Arena.curBlockUid (a : Arena) : Nat := (a.blocks.get? a.cur_block).getD 0

/-- `Arena::alloc`.  Oversized values (`size_of::<T>() >= BLOCK_SIZE`) get a
dedicated block inserted second to last and `cur_block` is incremented;
otherwise the value is bump-allocated in the current block, moving to the
next block first when it does not fit. -/
def Arena.alloc (a : Arena) (v : Val) : Arena × Ref :=
  if v.size ≥ a.bs then
    let uid := a.nextUid
    ({ a with blocks := insertBeforeLast a.blocks uid,
              nextUid := uid + 1,
              cur_block := a.cur_block + 1,
              mem := writeMem a.mem uid 0 v },
     ⟨a.arena_id, uid, 0⟩)
  else
    let cur := a.curBlockUid
    let ao := alignOffset a.offset v.align
    if a.offset + ao + v.size > a.bs then
      let a' := a.next_block
      let cur' := a'.curBlockUid
      let ao' := alignOffset a'.offset v.align
      ({ a' with mem := writeMem a'.mem cur' (a'.offset + ao') v,
                 offset := a'.offset + ao' + v.size },
       ⟨a.arena_id, cur', a'.offset + ao'⟩)
    else
      ({ a with mem := writeMem a.mem cur (a.offset + ao) v,
                offset := a.offset + ao + v.size },
       ⟨a.arena_id, cur, a.offset + ao⟩)

/-- `Arena::get` (and the address check of `Arena::get_mut`): `none` iff the
arena identities differ, otherwise the raw pointer is dereferenced (the model
returns the value last written at that address). -/
def Arena.get (a : Arena) (r : Ref) : Option Val :=
  if r.arena_id = a.arena_id then a.mem r.blockUid r.off else none

/-- `Arena::clear`: reset the cursor, keep the blocks (and, notably, the
`arena_id`). -/
def Arena.clear (a : Arena) : Arena :=
  { a with cur_block := 0, offset := 0 }

/-- A straight-line sequence of `alloc` calls, returning the final arena and
the issued refs in order. -/
def Arena.allocList : Arena → List Val → Arena × List Ref
  | a, [] => (a, [])
  | a, v :: vs =>
    let p := a.alloc v
    let q := p.1.allocList vs
    (q.1, p.2 :: q.2)

theorem Arena.alloc_fst_id (a : Arena) (v : Val) :
    (a.alloc v).1.arena_id = a.arena_id := by
  unfold Arena.alloc Arena.next_block Arena.alloc_block
  dsimp only
  split
  · rfl
  · split
    · split <;> rfl
    · rfl

theorem Arena.alloc_snd_id (a : Arena) (v : Val) :
    (a.alloc v).2.arena_id = a.arena_id := by
  unfold Arena.alloc Arena.next_block Arena.alloc_block
  dsimp only
  split
  · rfl
  · split
    · split <;> rfl
    · rfl

theorem Arena.allocList_fst_id (vs : List Val) (a : Arena) :
    (a.allocList vs).1.arena_id = a.arena_id := by
  induction vs generalizing a with
  | nil => rfl
  | cons v vs ih =>
    show ((a.alloc v).1.allocList vs).1.arena_id = a.arena_id
    rw [ih, Arena.alloc_fst_id]

theorem Arena.allocList_ref_id (vs : List Val) (a : Arena) :
    ∀ r ∈ (a.allocList vs).2, r.arena_id = a.arena_id := by
  induction vs generalizing a with
  | nil => intro r h; cases h
  | cons v vs ih =>
    intro r h
    have h' : r = (a.alloc v).2 ∨ r ∈ ((a.alloc v).1.allocList vs).2 := by
      simpa [Arena.allocList] using h
    rcases h' with h' | h'
    · rw [h', Arena.alloc_snd_id]
    · rw [ih _ _ h', Arena.alloc_fst_id]

example : (Arena.new 32 0).1.blocks = [0] := by decide

/- Replay of the repository's own `test_arena` offsets (u64/u32 layouts on a
32-byte block): offsets 8, 12, 24, 32, then a block change. -/
example :
    ((Arena.new 32 0).1.allocList
      [⟨8, 8, 1⟩, ⟨4, 4, 2⟩, ⟨8, 8, 3⟩, ⟨8, 8, 4⟩]).1.offset = 32 := by decide
example :
    (((Arena.new 32 0).1.allocList
      [⟨8, 8, 1⟩, ⟨4, 4, 2⟩, ⟨8, 8, 3⟩, ⟨8, 8, 4⟩, ⟨8, 8, 5⟩]).1.offset = 8
    ∧ ((Arena.new 32 0).1.allocList
      [⟨8, 8, 1⟩, ⟨4, 4, 2⟩, ⟨8, 8, 3⟩, ⟨8, 8, 4⟩, ⟨8, 8, 5⟩]).1.cur_block = 1) := by
  decide

theorem mem_insertBeforeLast (l : List Nat) (x u : Nat) :
    u ∈ insertBeforeLast l x ↔ u ∈ l ∨ u = x := by
  unfold insertBeforeLast
  have hsplit : u ∈ l ↔
      u ∈ l.take (l.length - 1) ∨ u ∈ l.drop (l.length - 1) := by
    rw [← List.mem_append, List.take_append_drop]
  rw [List.mem_append, List.mem_cons, hsplit]
  tauto

theorem nodup_insertBeforeLast (l : List Nat) (x : Nat) (h : l.Nodup)
    (hx : x ∉ l) : (insertBeforeLast l x).Nodup := by
  unfold insertBeforeLast
  have h2 : (l.take (l.length - 1) ++ l.drop (l.length - 1)).Nodup := by
    rw [List.take_append_drop]; exact h
  rw [List.nodup_append] at h2 ⊢
  obtain ⟨ht, hd, hdisj⟩ := h2
  refine ⟨ht, List.nodup_cons.mpr ⟨fun hc => hx ((l.drop_sublist _).subset hc), hd⟩, ?_⟩
  intro u hu hv
  rcases List.mem_cons.mp hv with rfl | hv
  · exact hx ((l.take_sublist _).subset hu)
  · exact hdisj hu hv

theorem length_insertBeforeLast (l : List Nat) (x : Nat) :
    (insertBeforeLast l x).length = l.length + 1 := by
  unfold insertBeforeLast
  simp only [List.length_append, List.length_take, List.length_cons,
    List.length_drop]
  omega

theorem get?_insertBeforeLast_last (l : List Nat) (x : Nat) (h : l ≠ []) :
    (insertBeforeLast l x).get? l.length = l.get? (l.length - 1) := by
  unfold insertBeforeLast
  have hpos : 0 < l.length := List.length_pos.mpr h
  have hlen : (l.take (l.length - 1)).length = l.length - 1 := by
    rw [List.length_take]; omega
  rw [List.get?_append_right (by omega)]
  rw [hlen]
  have h1 : l.length - (l.length - 1) = 1 := by omega
  rw [h1]
  show (l.drop (l.length - 1)).get? 0 = l.get? (l.length - 1)
  rw [List.get?_drop]
  congr 1

theorem nodup_append_singleton (l : List Nat) (x : Nat) (h : l.Nodup)
    (hx : x ∉ l) : (l ++ [x]).Nodup := by
  rw [List.nodup_append]
  refine ⟨h, List.nodup_singleton x, ?_⟩
  intro u hu hv
  rcases List.mem_singleton.mp hv with rfl
  exact hx hu

/-- The invariant maintained by every arena built with `Arena::new` and
grown only through `alloc`: the cursor sits on the last block, block uids
are fresh and distinct, every written cell lies in a listed block, and the
current block is unwritten at and past the bump offset. -/
structure Good (a : Arena) : Prop where
  cur_last : a.cur_block + 1 = a.blocks.length
  uid_lt : ∀ u ∈ a.blocks, u < a.nextUid
  nodup : a.blocks.Nodup
  mem_dom : ∀ u o, (a.mem u o).isSome → u ∈ a.blocks
  fresh : ∀ o, a.offset ≤ o → a.mem a.curBlockUid o = none

theorem Good.curBlockUid_mem {a : Arena} (h : Good a) :
    a.curBlockUid ∈ a.blocks := by
  unfold Arena.curBlockUid
  have hlt : a.cur_block < a.blocks.length := by have := h.cur_last; omega
  rw [List.get?_eq_get hlt]
  exact List.get_mem _ _ _

theorem Good.curBlockUid_lt {a : Arena} (h : Good a) :
    a.curBlockUid < a.nextUid :=
  h.uid_lt _ h.curBlockUid_mem

theorem Good.blocks_ne_nil {a : Arena} (h : Good a) : a.blocks ≠ [] := by
  intro hc
  have := h.cur_last
  rw [hc] at this
  simp at this

theorem Arena.next_block_eq_of_good {a : Arena} (h : Good a) :
    a.next_block =
      { a with cur_block := a.cur_block + 1, offset := 0,
               blocks := a.blocks ++ [a.nextUid],
               nextUid := a.nextUid + 1 } := by
  unfold Arena.next_block Arena.alloc_block
  dsimp only
  rw [if_pos]
  rw [Option.isNone_iff_eq_none, List.get?_eq_none]
  have := h.cur_last
  omega

theorem good_new (bs c : Nat) : Good (Arena.new bs c).1 := by
  refine ⟨rfl, ?_, ?_, ?_, ?_⟩
  · intro u hu
    simp only [Arena.new, Arena._new, Arena.alloc_block] at hu ⊢
    simp only [List.nil_append, List.mem_singleton] at hu
    omega
  · simp [Arena.new, Arena._new, Arena.alloc_block]
  · intro u o hsome
    simp [Arena.new, Arena._new, Arena.alloc_block] at hsome
  · intro o _
    rfl

/-- One `alloc` on a `Good` arena (of a value with nonzero size) keeps the
invariant, keeps the arena identity, never overwrites a previously written
cell, and stores the value at the returned handle's address. -/
theorem Arena.alloc_good (a : Arena) (v : Val) (hG : Good a) (hs : 0 < v.size) :
    Good (a.alloc v).1 ∧
    (a.alloc v).1.arena_id = a.arena_id ∧
    (∀ u o w, a.mem u o = some w → (a.alloc v).1.mem u o = some w) ∧
    (a.alloc v).2.arena_id = a.arena_id ∧
    (a.alloc v).1.mem (a.alloc v).2.blockUid (a.alloc v).2.off = some v := by
  by_cases hov : v.size ≥ a.bs
  · -- oversized: dedicated block spliced in second to last
    have he : a.alloc v =
        ({ a with blocks := insertBeforeLast a.blocks a.nextUid,
                  nextUid := a.nextUid + 1,
                  cur_block := a.cur_block + 1,
                  mem := writeMem a.mem a.nextUid 0 v },
         ⟨a.arena_id, a.nextUid, 0⟩) := by
      simp only [Arena.alloc]
      rw [if_pos hov]
    rw [he]
    dsimp only
    have hcu :
        ({ a with blocks := insertBeforeLast a.blocks a.nextUid,
                  nextUid := a.nextUid + 1,
                  cur_block := a.cur_block + 1,
                  mem := writeMem a.mem a.nextUid 0 v } : Arena).curBlockUid
        = a.curBlockUid := by
      unfold Arena.curBlockUid
      dsimp only
      rw [show a.cur_block + 1 = a.blocks.length from hG.cur_last]
      rw [get?_insertBeforeLast_last _ _ hG.blocks_ne_nil]
      rw [show a.blocks.length - 1 = a.cur_block from by
        have := hG.cur_last; omega]
    refine ⟨⟨?_, ?_, ?_, ?_, ?_⟩, rfl, ?_, rfl, ?_⟩
    · show a.cur_block + 1 + 1 = (insertBeforeLast a.blocks a.nextUid).length
      rw [length_insertBeforeLast]
      have := hG.cur_last
      omega
    · intro u hu
      rw [mem_insertBeforeLast] at hu
      rcases hu with hu | rfl
      · exact Nat.lt_succ_of_lt (hG.uid_lt _ hu)
      · exact Nat.lt_succ_self _
    · apply nodup_insertBeforeLast _ _ hG.nodup
      intro hc
      exact absurd (hG.uid_lt _ hc) (lt_irrefl _)
    · intro u o hsome
      show u ∈ insertBeforeLast a.blocks a.nextUid
      rw [mem_insertBeforeLast]
      unfold writeMem at hsome
      dsimp only at hsome
      by_cases hc : u = a.nextUid ∧ o = 0
      · exact Or.inr hc.1
      · rw [if_neg hc] at hsome
        exact Or.inl (hG.mem_dom _ _ hsome)
    · intro o ho
      rw [hcu]
      show writeMem a.mem a.nextUid 0 v a.curBlockUid o = none
      unfold writeMem
      rw [if_neg]
      · exact hG.fresh o ho
      · intro hc
        have := hG.curBlockUid_lt
        omega
    · intro u o w hw
      show writeMem a.mem a.nextUid 0 v u o = some w
      unfold writeMem
      rw [if_neg]
      · exact hw
      · rintro ⟨rfl, -⟩
        exact absurd (hG.uid_lt _ (hG.mem_dom _ _ (by rw [hw]; rfl)))
          (lt_irrefl _)
    · show writeMem a.mem a.nextUid 0 v a.nextUid 0 = some v
      simp [writeMem]
  · by_cases hfit : a.offset + alignOffset a.offset v.align + v.size > a.bs
    · -- does not fit: advance to a freshly allocated block
      have hcu3 :
          ({ a with cur_block := a.cur_block + 1, offset := 0,
                    blocks := a.blocks ++ [a.nextUid],
                    nextUid := a.nextUid + 1 } : Arena).curBlockUid
          = a.nextUid := by
        unfold Arena.curBlockUid
        dsimp only
        rw [hG.cur_last, List.get?_concat_length]
        rfl
      have he : a.alloc v =
          ({ a with cur_block := a.cur_block + 1,
                    blocks := a.blocks ++ [a.nextUid],
                    nextUid := a.nextUid + 1,
                    mem := writeMem a.mem a.nextUid (0 + alignOffset 0 v.align) v,
                    offset := 0 + alignOffset 0 v.align + v.size },
           ⟨a.arena_id, a.nextUid, 0 + alignOffset 0 v.align⟩) := by
        simp only [Arena.alloc]
        rw [if_neg hov, if_pos hfit, Arena.next_block_eq_of_good hG, hcu3]
      rw [he]
      dsimp only
      have hcuF :
          ({ a with cur_block := a.cur_block + 1,
                    blocks := a.blocks ++ [a.nextUid],
                    nextUid := a.nextUid + 1,
                    mem := writeMem a.mem a.nextUid (0 + alignOffset 0 v.align) v,
                    offset := 0 + alignOffset 0 v.align + v.size } : Arena).curBlockUid
          = a.nextUid := by
        unfold Arena.curBlockUid
        dsimp only
        rw [hG.cur_last, List.get?_concat_length]
        rfl
      refine ⟨⟨?_, ?_, ?_, ?_, ?_⟩, rfl, ?_, rfl, ?_⟩
      · show a.cur_block + 1 + 1 = (a.blocks ++ [a.nextUid]).length
        simp only [List.length_append, List.length_singleton]
        have := hG.cur_last
        omega
      · intro u hu
        rw [List.mem_append, List.mem_singleton] at hu
        rcases hu with hu | rfl
        · exact Nat.lt_succ_of_lt (hG.uid_lt _ hu)
        · exact Nat.lt_succ_self _
      · apply nodup_append_singleton _ _ hG.nodup
        intro hc
        exact absurd (hG.uid_lt _ hc) (lt_irrefl _)
      · intro u o hsome
        show u ∈ a.blocks ++ [a.nextUid]
        rw [List.mem_append, List.mem_singleton]
        unfold writeMem at hsome
        dsimp only at hsome
        by_cases hc : u = a.nextUid ∧ o = 0 + alignOffset 0 v.align
        · exact Or.inr hc.1
        · rw [if_neg hc] at hsome
          exact Or.inl (hG.mem_dom _ _ hsome)
      · intro o ho
        dsimp only at ho
        rw [hcuF]
        show writeMem a.mem a.nextUid (0 + alignOffset 0 v.align) v a.nextUid o
          = none
        unfold writeMem
        rw [if_neg]
        · cases hm : a.mem a.nextUid o with
          | none => rfl
          | some w =>
            exact absurd (hG.uid_lt _ (hG.mem_dom _ _ (by rw [hm]; rfl)))
              (lt_irrefl _)
        · intro hc
          omega
      · intro u o w hw
        show writeMem a.mem a.nextUid (0 + alignOffset 0 v.align) v u o = some w
        unfold writeMem
        rw [if_neg]
        · exact hw
        · rintro ⟨rfl, -⟩
          exact absurd (hG.uid_lt _ (hG.mem_dom _ _ (by rw [hw]; rfl)))
            (lt_irrefl _)
      · show writeMem a.mem a.nextUid (0 + alignOffset 0 v.align) v a.nextUid
          (0 + alignOffset 0 v.align) = some v
        simp [writeMem]
    · -- fits in the current block
      have he : a.alloc v =
          ({ a with mem := writeMem a.mem a.curBlockUid
                      (a.offset + alignOffset a.offset v.align) v,
                    offset := a.offset + alignOffset a.offset v.align + v.size },
           ⟨a.arena_id, a.curBlockUid,
            a.offset + alignOffset a.offset v.align⟩) := by
        simp only [Arena.alloc]
        rw [if_neg hov, if_neg hfit]
      rw [he]
      dsimp only
      have hcu :
          ({ a with mem := writeMem a.mem a.curBlockUid
                      (a.offset + alignOffset a.offset v.align) v,
                    offset := a.offset + alignOffset a.offset v.align + v.size }
          : Arena).curBlockUid = a.curBlockUid := rfl
      refine ⟨⟨hG.cur_last, hG.uid_lt, hG.nodup, ?_, ?_⟩, rfl, ?_, rfl, ?_⟩
      · intro u o hsome
        show u ∈ a.blocks
        unfold writeMem at hsome
        dsimp only at hsome
        by_cases hc : u = a.curBlockUid
            ∧ o = a.offset + alignOffset a.offset v.align
        · rw [hc.1]
          exact hG.curBlockUid_mem
        · rw [if_neg hc] at hsome
          exact hG.mem_dom _ _ hsome
      · intro o ho
        dsimp only at ho
        rw [hcu]
        show writeMem a.mem a.curBlockUid
          (a.offset + alignOffset a.offset v.align) v a.curBlockUid o = none
        unfold writeMem
        rw [if_neg]
        · exact hG.fresh o (by omega)
        · intro hc
          omega
      · intro u o w hw
        show writeMem a.mem a.curBlockUid
          (a.offset + alignOffset a.offset v.align) v u o = some w
        unfold writeMem
        rw [if_neg]
        · exact hw
        · rintro ⟨rfl, rfl⟩
          rw [hG.fresh _ (Nat.le_add_right _ _)] at hw
          cases hw
      · show writeMem a.mem a.curBlockUid
          (a.offset + alignOffset a.offset v.align) v a.curBlockUid
          (a.offset + alignOffset a.offset v.align) = some v
        simp [writeMem]

/-- A whole sequence of `alloc` calls on a `Good` arena keeps the invariant,
never disturbs previously written cells, and every handle issued during the
sequence still reads its original value at the end. -/
theorem Arena.allocList_good (vals : List Val) (a : Arena) (hG : Good a)
    (hsz : ∀ v ∈ vals, 0 < v.size) :
    Good (a.allocList vals).1 ∧
    (∀ u o w, a.mem u o = some w → (a.allocList vals).1.mem u o = some w) ∧
    (a.allocList vals).2.length = vals.length ∧
    (∀ i, i < vals.length →
      (a.allocList vals).1.get ((a.allocList vals).2.getD i default)
        = some (vals.getD i default)) := by
  induction vals generalizing a with
  | nil =>
    exact ⟨hG, fun u o w hw => hw, rfl, fun i hi => absurd hi (by simp)⟩
  | cons v vs ih =>
    have step := Arena.alloc_good a v hG (hsz v (List.mem_cons_self _ _))
    have ihh := ih (a.alloc v).1 step.1
      (fun w hw => hsz w (List.mem_cons_of_mem _ hw))
    refine ⟨?_, ?_, ?_, ?_⟩
    · show Good ((a.alloc v).1.allocList vs).1
      exact ihh.1
    · intro u o w hw
      exact ihh.2.1 u o w (step.2.2.1 u o w hw)
    · show ((a.alloc v).2 :: ((a.alloc v).1.allocList vs).2).length
        = vs.length + 1
      simp [ihh.2.2.1]
    · intro i hi
      cases i with
      | zero =>
        show ((a.alloc v).1.allocList vs).1.get (a.alloc v).2 = some v
        unfold Arena.get
        rw [if_pos (by
          rw [step.2.2.2.1, Arena.allocList_fst_id, step.2.1])]
        exact ihh.2.1 _ _ _ step.2.2.2.2
      | succ j =>
        show ((a.alloc v).1.allocList vs).1.get
          (((a.alloc v).1.allocList vs).2.getD j default)
          = some (vs.getD j default)
        exact ihh.2.2.2 j (by simpa using hi)

/-- Claim C7: for any sequence of `alloc` calls starting from a fresh arena
— in particular one whose total size exceeds one block, where the arena
transparently allocates additional blocks — every previously issued handle
remains valid at the end: `get` returns the originally stored value (values
of nonzero size; a value's bytes never move while the arena is alive). -/
theorem c7_handles_survive_growth (bs c : Nat) (vals : List Val)
    (hsz : ∀ v ∈ vals, 0 < v.size) :
    ((Arena.new bs c).1.allocList vals).2.length = vals.length ∧
    ∀ i, i < vals.length →
      ((Arena.new bs c).1.allocList vals).1.get
        (((Arena.new bs c).1.allocList vals).2.getD i default)
        = some (vals.getD i default) := by
  have h := Arena.allocList_good vals (Arena.new bs c).1 (good_new bs c) hsz
  exact ⟨h.2.2.1, h.2.2.2⟩

/-- Witness for C7: the repository test's own allocation sequence on 32-byte
blocks (total 36 bytes, spilling into a second block): the first and the
fifth handle still read their original values, and a second block was
indeed allocated. -/
theorem c7_witness :
    ((((Arena.new 32 0).1.allocList
        [⟨8, 8, 1⟩, ⟨4, 4, 2⟩, ⟨8, 8, 3⟩, ⟨8, 8, 4⟩, ⟨8, 8, 5⟩]).1.get
      (((Arena.new 32 0).1.allocList
        [⟨8, 8, 1⟩, ⟨4, 4, 2⟩, ⟨8, 8, 3⟩, ⟨8, 8, 4⟩, ⟨8, 8, 5⟩]).2.getD 0
          default) = some ⟨8, 8, 1⟩) ∧
     (((Arena.new 32 0).1.allocList
        [⟨8, 8, 1⟩, ⟨4, 4, 2⟩, ⟨8, 8, 3⟩, ⟨8, 8, 4⟩, ⟨8, 8, 5⟩]).1.get
      (((Arena.new 32 0).1.allocList
        [⟨8, 8, 1⟩, ⟨4, 4, 2⟩, ⟨8, 8, 3⟩, ⟨8, 8, 4⟩, ⟨8, 8, 5⟩]).2.getD 4
          default) = some ⟨8, 8, 5⟩) ∧
     ((Arena.new 32 0).1.allocList
        [⟨8, 8, 1⟩, ⟨4, 4, 2⟩, ⟨8, 8, 3⟩, ⟨8, 8, 4⟩, ⟨8, 8, 5⟩]).1.blocks.length
        = 2) := by
  refine ⟨?_, ?_, by decide⟩
  · exact (c7_handles_survive_growth 32 0
      [⟨8, 8, 1⟩, ⟨4, 4, 2⟩, ⟨8, 8, 3⟩, ⟨8, 8, 4⟩, ⟨8, 8, 5⟩]
      (by decide)).2 0 (by decide)
  · exact (c7_handles_survive_growth 32 0
      [⟨8, 8, 1⟩, ⟨4, 4, 2⟩, ⟨8, 8, 3⟩, ⟨8, 8, 4⟩, ⟨8, 8, 5⟩]
      (by decide)).2 4 (by decide)

theorem Arena.alloc_fst_bs (a : Arena) (v : Val) :
    (a.alloc v).1.bs = a.bs := by
  unfold Arena.alloc Arena.next_block Arena.alloc_block
  dsimp only
  split
  · rfl
  · split
    · split <;> rfl
    · rfl

/-- The ref returned by a bump allocation that fits in the current block. -/
theorem Arena.alloc_snd_of_fits (b : Arena) (w : Val) (h1 : ¬ w.size ≥ b.bs)
    (h2 : ¬ (b.offset + alignOffset b.offset w.align + w.size > b.bs)) :
    (b.alloc w).2 =
      ⟨b.arena_id, b.curBlockUid, b.offset + alignOffset b.offset w.align⟩ := by
  simp only [Arena.alloc]
  rw [if_neg h1, if_neg h2]

/-- An arena whose cursor is not on the last block, reached through the
public API: grow to two blocks, then `clear()`. -/
def clearedTwoBlockArena : Arena :=
  ((((Arena.new 8 0).1.alloc ⟨6, 1, 1⟩).1.alloc ⟨6, 1, 2⟩).1).clear

/-- Claim C8 as stated is false: after `clear()` on a two-block arena the
cursor is on block index 0 of 2, and the oversized branch
(`blocks.insert(len-1, dedicated); cur_block += 1`) then leaves the cursor
pointing at the *dedicated* block itself (uid 2), not at the same storage
position as before (uid 0) — and the next normal allocation is bump-placed
inside the dedicated block, overwriting the oversized value. -/
theorem c8_counterexample :
    ((clearedTwoBlockArena.alloc ⟨8, 1, 7⟩).1.curBlockUid
      ≠ clearedTwoBlockArena.curBlockUid) ∧
    ((clearedTwoBlockArena.alloc ⟨8, 1, 7⟩).1.offset
      = clearedTwoBlockArena.offset) ∧
    (((clearedTwoBlockArena.alloc ⟨8, 1, 7⟩).1.alloc ⟨4, 1, 9⟩).1.get
        (clearedTwoBlockArena.alloc ⟨8, 1, 7⟩).2 = some ⟨4, 1, 9⟩) := by
  refine ⟨by decide, by decide, by decide⟩

/-- Claim C8, amended: *when the cursor is on the last block* — which holds
for every arena grown only by `alloc` since construction — an oversized
value gets a dedicated out-of-band block inserted second to last, the
cursor still designates the same block (shifted one index up) at the same
byte offset, the oversized value is readable through its handle, and a
subsequent normal allocation that fits yields exactly the ref it would have
without the oversized allocation. -/
theorem c8_oversized_alloc_cursor_on_last_block (a : Arena) (v : Val)
    (hcur : a.cur_block + 1 = a.blocks.length) (hov : v.size ≥ a.bs) :
    (a.alloc v).1.curBlockUid = a.curBlockUid ∧
    (a.alloc v).1.offset = a.offset ∧
    (a.alloc v).1.cur_block + 1 = (a.alloc v).1.blocks.length ∧
    (a.alloc v).1.get (a.alloc v).2 = some v ∧
    (∀ w : Val, w.size < a.bs →
      a.offset + alignOffset a.offset w.align + w.size ≤ a.bs →
      ((a.alloc v).1.alloc w).2 = (a.alloc w).2) := by
  have hne : a.blocks ≠ [] := by
    intro hc
    rw [hc] at hcur
    simp at hcur
  have hcu : (a.alloc v).1.curBlockUid = a.curBlockUid := by
    simp only [Arena.alloc]
    rw [if_pos hov]
    unfold Arena.curBlockUid
    dsimp only
    rw [show a.cur_block + 1 = a.blocks.length from hcur]
    rw [get?_insertBeforeLast_last _ _ hne]
    rw [show a.blocks.length - 1 = a.cur_block from by omega]
  have hoff : (a.alloc v).1.offset = a.offset := by
    simp only [Arena.alloc]
    rw [if_pos hov]
  have hbs : (a.alloc v).1.bs = a.bs := Arena.alloc_fst_bs a v
  have hid : (a.alloc v).1.arena_id = a.arena_id := Arena.alloc_fst_id a v
  refine ⟨hcu, hoff, ?_, ?_, ?_⟩
  · simp only [Arena.alloc]
    rw [if_pos hov]
    dsimp only
    rw [length_insertBeforeLast]
    omega
  · simp only [Arena.alloc]
    rw [if_pos hov]
    unfold Arena.get
    dsimp only
    rw [if_pos rfl]
    simp [writeMem]
  · intro w hw1 hw2
    have h1a : ¬ w.size ≥ a.bs := by omega
    have h1b : ¬ w.size ≥ (a.alloc v).1.bs := by rw [hbs]; omega
    have h2a : ¬ (a.offset + alignOffset a.offset w.align + w.size > a.bs) := by
      omega
    have h2b : ¬ ((a.alloc v).1.offset
        + alignOffset (a.alloc v).1.offset w.align + w.size
        > (a.alloc v).1.bs) := by
      rw [hoff, hbs]
      omega
    rw [Arena.alloc_snd_of_fits _ _ h1b h2b, Arena.alloc_snd_of_fits _ _ h1a h2a]
    rw [hid, hcu, hoff]

/-- Witness for the amended C8: a fresh 8-byte-block arena holding one
6-byte value; an oversized 8-byte value keeps the cursor on the same block
and offset, and the next 1-byte allocation gets exactly the ref it would
have had without the oversized allocation. -/
theorem c8_witness :
    ((((Arena.new 8 0).1.alloc ⟨6, 1, 1⟩).1.alloc ⟨8, 1, 7⟩).1.curBlockUid
      = ((Arena.new 8 0).1.alloc ⟨6, 1, 1⟩).1.curBlockUid) ∧
    (((((Arena.new 8 0).1.alloc ⟨6, 1, 1⟩).1.alloc ⟨8, 1, 7⟩).1.alloc
        ⟨1, 1, 3⟩).2
      = (((Arena.new 8 0).1.alloc ⟨6, 1, 1⟩).1.alloc ⟨1, 1, 3⟩).2) := by
  constructor
  · exact (c8_oversized_alloc_cursor_on_last_block _ ⟨8, 1, 7⟩
      (by decide) (by decide)).1
  · exact (c8_oversized_alloc_cursor_on_last_block _ ⟨8, 1, 7⟩
      (by decide) (by decide)).2.2.2.2 ⟨1, 1, 3⟩ (by decide) (by decide)

/-- The `State` of `state.rs`, restricted to the parts the change-tracking
contract is about: the owned arena, the watched set `redraw_refs` of
`(arena_id, address)` pairs (the Rust `usize` address is our
(block uid, offset) pair), and the single `request_redraw` flag.  The event
subsystem and the five built-in window handles are orthogonal to these
claims and omitted. -/
structure StateM where
  arena : Arena
  redraw_refs : List (Nat × Nat × Nat)
  request_redraw : Bool

/-- `(r.arena_id(), r.as_ptr().as_ptr() as usize)`: the key stored in
`redraw_refs`. -/
def watchKey (r : Ref) : Nat × Nat × Nat := (r.arena_id, r.blockUid, r.off)

/-- `State::emit_ref_changed`: raise the redraw flag iff the handle's key is
watched. -/
def StateM.emit_ref_changed (s : StateM) (r : Ref) : StateM :=
  if watchKey r ∈ s.redraw_refs then { s with request_redraw := true } else s

/-- `State::redraw_on_change`: insert the handle's key into the watched set
(`HashSet::insert`; inserting an existing key is a no-op). -/
def StateM.redraw_on_change (s : StateM) (r : Ref) : StateM :=
  if watchKey r ∈ s.redraw_refs then s
  else { s with redraw_refs := watchKey r :: s.redraw_refs }

/-- `State::get`. -/
def StateM.get (s : StateM) (r : Ref) : Option Val := s.arena.get r

/-- Writing through the pointer obtained from `Arena::get_mut` (`*p = val`). -/
def Arena.setMem (a : Arena) (r : Ref) (v : Val) : Arena :=
  { a with mem := writeMem a.mem r.blockUid r.off v }

/-- `State::set`: fails when `get_mut` fails (foreign handle); otherwise
overwrite and, iff the value changed under `PartialEq`, call
`emit_ref_changed`. -/
def StateM.set (s : StateM) (r : Ref) (v : Val) : Option StateM :=
  match s.arena.get r with
  | none => none
  | some old =>
    let s1 : StateM := { s with arena := s.arena.setMem r v }
    if old ≠ v then some (s1.emit_ref_changed r) else some s1

/-- `State::mutate_ref`: apply `op` in place, comparing before/after to
decide whether to notify. -/
def StateM.mutate_ref (s : StateM) (r : Ref) (op : Val → Val) : Option StateM :=
  match s.arena.get r with
  | none => none
  | some old =>
    let new := op old
    let s1 : StateM := { s with arena := s.arena.setMem r new }
    if old ≠ new then some (s1.emit_ref_changed r) else some s1

/-- `DynPage::take_redraw_request` from `page.rs`: return the flag and reset
it. -/
def StateM.take_redraw_request (s : StateM) : Bool × StateM :=
  (s.request_redraw, { s with request_redraw := false })

/-- Claim C3: `set` on a foreign handle fails with no effect; on a valid
handle it overwrites the value and the redraw flag becomes true iff it
already was, or the value changed (under equality) and the handle's
(identity, address) key is watched; `redraw_on_change` is what puts a key
into the watched set; `take_redraw_request` returns the prior flag and
resets it, so a pending request is reported exactly once. -/
theorem c3_set_redraw_contract (s : StateM) (r : Ref) (v : Val) :
    (r.arena_id ≠ s.arena.arena_id → s.set r v = none) ∧
    (∀ old, s.arena.get r = some old →
      ∃ s', s.set r v = some s' ∧
        s'.arena.mem r.blockUid r.off = some v ∧
        s'.redraw_refs = s.redraw_refs ∧
        s'.request_redraw =
          (s.request_redraw ||
            (decide (old ≠ v) && decide (watchKey r ∈ s.redraw_refs)))) ∧
    (∀ r2 : Ref, watchKey r2 ∈ (s.redraw_on_change r2).redraw_refs) ∧
    ((s.take_redraw_request.1 = s.request_redraw) ∧
     (s.take_redraw_request.2.request_redraw = false) ∧
     (s.take_redraw_request.2.take_redraw_request.1 = false)) := by
  refine ⟨?_, ?_, ?_, rfl, rfl, rfl⟩
  · intro hne
    unfold StateM.set Arena.get
    rw [if_neg hne]
  · intro old hold
    unfold StateM.set
    rw [hold]
    dsimp only
    by_cases hch : old = v
    · subst hch
      refine ⟨{ s with arena := s.arena.setMem r old }, ?_, ?_, rfl, ?_⟩
      · rw [if_neg (by simp)]
      · simp [Arena.setMem, writeMem]
      · simp
    · rw [if_pos hch]
      unfold StateM.emit_ref_changed
      by_cases hw : watchKey r ∈ s.redraw_refs
      · rw [if_pos hw]
        refine ⟨_, rfl, ?_, rfl, ?_⟩
        · simp [Arena.setMem, writeMem]
        · simp [hch, hw]
      · rw [if_neg hw]
        refine ⟨_, rfl, ?_, rfl, ?_⟩
        · simp [Arena.setMem, writeMem]
        · simp [hch, hw]
  · intro r2
    unfold StateM.redraw_on_change
    by_cases hw : watchKey r2 ∈ s.redraw_refs
    · rw [if_pos hw]; exact hw
    · rw [if_neg hw]; exact List.mem_cons_self _ _

/-- Witness for C3 at a concrete input: a watched handle whose value changes
(the flag goes up), checked together with the foreign-handle failure and the
take-once behaviour. -/
theorem c3_witness :
    (StateM.set ⟨((Arena.new 16 0).1.alloc ⟨4, 1, 7⟩).1,
        [watchKey ((Arena.new 16 0).1.alloc ⟨4, 1, 7⟩).2], false⟩
        (⟨99, 0, 0⟩ : Ref) ⟨4, 1, 8⟩ = none) ∧
    (∃ s', StateM.set ⟨((Arena.new 16 0).1.alloc ⟨4, 1, 7⟩).1,
        [watchKey ((Arena.new 16 0).1.alloc ⟨4, 1, 7⟩).2], false⟩
        ((Arena.new 16 0).1.alloc ⟨4, 1, 7⟩).2 ⟨4, 1, 8⟩ = some s' ∧
      s'.arena.mem ((Arena.new 16 0).1.alloc ⟨4, 1, 7⟩).2.blockUid
          ((Arena.new 16 0).1.alloc ⟨4, 1, 7⟩).2.off = some ⟨4, 1, 8⟩ ∧
      s'.redraw_refs = [watchKey ((Arena.new 16 0).1.alloc ⟨4, 1, 7⟩).2] ∧
      s'.request_redraw =
        (false || (decide ((⟨4, 1, 7⟩ : Val) ≠ ⟨4, 1, 8⟩) &&
          decide (watchKey ((Arena.new 16 0).1.alloc ⟨4, 1, 7⟩).2 ∈
            [watchKey ((Arena.new 16 0).1.alloc ⟨4, 1, 7⟩).2])))) := by
  constructor
  · exact (c3_set_redraw_contract _ _ _).1 (by decide)
  · exact (c3_set_redraw_contract _ _ ⟨4, 1, 8⟩).2.1 ⟨4, 1, 7⟩ (by decide)

/-- The output domain of lazy evaluation: a scalar value, the unit, or a
tuple of outputs (the `Output` associated types of the `LazyValue` impls in
`reactivity.rs`). -/
inductive SemVal where
  | base : Val → SemVal
  | unitSV : SemVal
  | tupSV : List SemVal → SemVal

mutual

/-- The `LazyValue` impls of `reactivity.rs`, as one syntax tree:
a raw `Ref<T>`, the unit impl, a tuple of lazy values (the macro-generated
`impl_tuple_lazy` instances, any arity), and `Binding { inputs, func }`
whose pure closure is embedded as a Lean function. -/
inductive LV where
  | refLV : Ref → LV
  | unitLV : LV
  | tup : LVList → LV
  | binding : LV → (SemVal → SemVal) → LV

/-- The inputs of a tuple `LazyValue`, in declaration order. -/
inductive LVList where
  | nil : LVList
  | cons : LV → LVList → LVList

end

mutual

/-- `LazyValue::eval`:
* `Ref<T>`: `state.arena.get(*self).map(|v| *v)`;
* `()`: `Some(())`;
* tuples: evaluate each component left to right, `return None` the moment
  one fails;
* `Binding`: `Some((self.func)(self.inputs.eval(state)?))`. -/
def LV.eval : LV → StateM → Option SemVal
  | .refLV r, s => (s.arena.get r).map SemVal.base
  | .unitLV, _ => some .unitSV
  | .tup xs, s => (LVList.evalL xs s).map SemVal.tupSV
  | .binding i f, s =>
    match i.eval s with
    | none => none
    | some v => some (f v)

def LVList.evalL : LVList → StateM → Option (List SemVal)
  | .nil, _ => some []
  | .cons x xs, s =>
    match x.eval s with
    | none => none
    | some v =>
      match LVList.evalL xs s with
      | none => none
      | some vs => some (v :: vs)

end

mutual

/-- Every handle referenced anywhere in the tree is valid for the state's
arena ("no missing inputs"). -/
def LV.validB : LV → Arena → Bool
  | .refLV r, a => (a.get r).isSome
  | .unitLV, _ => true
  | .tup xs, a => LVList.validBL xs a
  | .binding i _, a => i.validB a

def LVList.validBL : LVList → Arena → Bool
  | .nil, _ => true
  | .cons x xs, a => x.validB a && LVList.validBL xs a

end

mutual

/-- The tree contains at least one invalid handle. -/
def LV.hasInvalidB : LV → Arena → Bool
  | .refLV r, a => !(a.get r).isSome
  | .unitLV, _ => false
  | .tup xs, a => LVList.hasInvalidBL xs a
  | .binding i _, a => i.hasInvalidB a

def LVList.hasInvalidBL : LVList → Arena → Bool
  | .nil, _ => false
  | .cons x xs, a => x.hasInvalidB a || LVList.hasInvalidBL xs a

end

mutual

/-- The total "specification" evaluator: recursively evaluate every input
and apply each binding's stored function to the evaluated inputs.  On valid
trees this is what `eval` must produce. -/
def LV.evalT : LV → Arena → SemVal
  | .refLV r, a => .base ((a.get r).getD default)
  | .unitLV, _ => .unitSV
  | .tup xs, a => .tupSV (LVList.evalTL xs a)
  | .binding i f, a => f (i.evalT a)

def LVList.evalTL : LVList → Arena → List SemVal
  | .nil, _ => []
  | .cons x xs, a => x.evalT a :: LVList.evalTL xs a

end

mutual

theorem LV.eval_ok (t : LV) (s : StateM) :
    (t.validB s.arena = true → t.eval s = some (t.evalT s.arena)) ∧
    (t.hasInvalidB s.arena = true → t.eval s = none) := by
  cases t with
  | refLV r =>
    constructor
    · intro h
      simp only [LV.validB, Option.isSome_iff_exists] at h
      obtain ⟨v, hv⟩ := h
      simp [LV.eval, LV.evalT, hv]
    · intro h
      simp only [LV.hasInvalidB, Bool.not_eq_true'] at h
      have h' : s.arena.get r = none := by
        cases hg : s.arena.get r with
        | none => rfl
        | some v => rw [hg] at h; cases h
      simp [LV.eval, h']
  | unitLV => exact ⟨fun _ => rfl, fun h => by cases h⟩
  | tup xs =>
    have h := LVList.evalL_ok xs s
    constructor
    · intro hv
      have := h.1 hv
      simp [LV.eval, LV.evalT, this]
    · intro hv
      have := h.2 hv
      simp [LV.eval, this]
  | binding i f =>
    have h := LV.eval_ok i s
    constructor
    · intro hv
      have := h.1 hv
      simp [LV.eval, LV.evalT, this]
    · intro hv
      have := h.2 hv
      simp [LV.eval, this]

theorem LVList.evalL_ok (xs : LVList) (s : StateM) :
    (LVList.validBL xs s.arena = true →
      LVList.evalL xs s = some (LVList.evalTL xs s.arena)) ∧
    (LVList.hasInvalidBL xs s.arena = true → LVList.evalL xs s = none) := by
  cases xs with
  | nil => exact ⟨fun _ => rfl, fun h => by cases h⟩
  | cons x xs =>
    have hx := LV.eval_ok x s
    have hxs := LVList.evalL_ok xs s
    constructor
    · intro hv
      simp only [LVList.validBL, Bool.and_eq_true] at hv
      have h1 := hx.1 hv.1
      have h2 := hxs.1 hv.2
      simp [LVList.evalL, LVList.evalTL, h1, h2]
    · intro hv
      simp only [LVList.hasInvalidBL, Bool.or_eq_true] at hv
      rcases hv with hv | hv
      · have h1 := hx.2 hv
        simp [LVList.evalL, h1]
      · have h2 := hxs.2 hv
        cases h1 : x.eval s with
        | none => simp [LVList.evalL, h1]
        | some v => simp [LVList.evalL, h1, h2]

end

/-- Claim C1: evaluating a `Binding` whose input tree has no missing inputs
returns `Some` of the stored function applied to the recursively evaluated
input tuple; evaluating any `Value`/`Binding` tree containing at least one
invalid handle returns `None` (so in particular a binding over such a tree
never has its function's output observed). -/
theorem c1_binding_eval (i : LV) (f : SemVal → SemVal) (s : StateM) :
    (LV.validB i s.arena = true →
      LV.eval (LV.binding i f) s = some (f (LV.evalT i s.arena))) ∧
    (∀ t : LV, t.hasInvalidB s.arena = true → t.eval s = none) := by
  constructor
  · intro hv
    have h := (LV.eval_ok i s).1 hv
    simp [LV.eval, h]
  · intro t ht
    exact (LV.eval_ok t s).2 ht

/-- Witness for C1: a binding over a two-handle tuple evaluates to the
function applied to the stored values, and a tree containing a foreign
handle evaluates to `None`. -/
theorem c1_witness :
    (LV.eval
      (LV.binding
        (LV.tup (LVList.cons
          (LV.refLV (((Arena.new 64 0).1.alloc ⟨4, 4, 5⟩).1.alloc ⟨4, 4, 6⟩).2)
          (LVList.cons (LV.refLV ((Arena.new 64 0).1.alloc ⟨4, 4, 5⟩).2)
            LVList.nil)))
        id)
      ⟨(((Arena.new 64 0).1.alloc ⟨4, 4, 5⟩).1.alloc ⟨4, 4, 6⟩).1, [], false⟩ =
      some (id (LV.evalT
        (LV.tup (LVList.cons
          (LV.refLV (((Arena.new 64 0).1.alloc ⟨4, 4, 5⟩).1.alloc ⟨4, 4, 6⟩).2)
          (LVList.cons (LV.refLV ((Arena.new 64 0).1.alloc ⟨4, 4, 5⟩).2)
            LVList.nil)))
        (((Arena.new 64 0).1.alloc ⟨4, 4, 5⟩).1.alloc ⟨4, 4, 6⟩).1))) ∧
    (LV.eval (LV.binding (LV.refLV ⟨999, 0, 0⟩) id)
      ⟨(((Arena.new 64 0).1.alloc ⟨4, 4, 5⟩).1.alloc ⟨4, 4, 6⟩).1, [], false⟩ =
      none) := by
  constructor
  · exact (c1_binding_eval _ id _).1 (by decide)
  · exact (c1_binding_eval LV.unitLV id _).2 _ (by decide)

/-- Claim C2: after `clear()`, a previously issued handle of the same arena
is claimed to be rejected by `Arena::get`.  The code keeps `arena_id`
unchanged in `clear`, so the identity check passes and `get` dereferences the
stale pointer: right after `clear` it returns the old value, and after the
storage is reused by a new `alloc` it returns the unrelated new value — never
`none`.  This contradicts `get`'s own documentation ("Returns None when the
value is invalid (Arena has been cleared, ...)"). -/
theorem c2_get_after_clear_is_some :
    ((((Arena.new 16 0).1.alloc ⟨4, 1, 42⟩).1.clear.get
        ((Arena.new 16 0).1.alloc ⟨4, 1, 42⟩).2 = some ⟨4, 1, 42⟩) ∧
     (((((Arena.new 16 0).1.alloc ⟨4, 1, 42⟩).1.clear.alloc ⟨4, 1, 99⟩).1.get
        ((Arena.new 16 0).1.alloc ⟨4, 1, 42⟩).2) = some ⟨4, 1, 99⟩)) := by
  decide

/-- Claim C6: arena identities are handed out by a process-global counter,
monotonically incremented, so an arena constructed later (with any number of
further constructions in between, whether or not the first arena still
exists) has a distinct identity, and `get` on it rejects every handle issued
by the earlier arena. -/
theorem c6_cross_arena_get_none (bs1 bs2 c k : Nat) (vals1 vals2 : List Val) :
    (Arena.new bs1 c).2 = c + 1 ∧
    ((Arena.new bs1 c).1.allocList vals1).1.arena_id = c ∧
    ((Arena.new bs2 (c + 1 + k)).1.allocList vals2).1.arena_id = c + 1 + k ∧
    ∀ r ∈ ((Arena.new bs1 c).1.allocList vals1).2,
      r.arena_id = c ∧
      ((Arena.new bs2 (c + 1 + k)).1.allocList vals2).1.get r = none := by
  refine ⟨rfl, ?_, ?_, ?_⟩
  · rw [Arena.allocList_fst_id]; rfl
  · rw [Arena.allocList_fst_id]; rfl
  · intro r hr
    have h1 : r.arena_id = c := by
      have := Arena.allocList_ref_id vals1 (Arena.new bs1 c).1 r hr
      simpa [Arena.new, Arena._new, Arena.alloc_block] using this
    refine ⟨h1, ?_⟩
    have h2 : ((Arena.new bs2 (c + 1 + k)).1.allocList vals2).1.arena_id
        = c + 1 + k := by rw [Arena.allocList_fst_id]; rfl
    unfold Arena.get
    rw [h1, h2]
    simp only [ite_eq_right_iff]
    intro h; omega

/-- Witness for C6 at a concrete input: one value allocated from the first
arena, checked against a later-constructed arena. -/
theorem c6_witness :
    ((((Arena.new 8 1).1.allocList [⟨4, 1, 5⟩]).2.headD default).arena_id = 1 ∧
     ((Arena.new 8 (1 + 1 + 0)).1.allocList []).1.get
        (((Arena.new 8 1).1.allocList [⟨4, 1, 5⟩]).2.headD default) = none) := by
  have h := c6_cross_arena_get_none 8 8 1 0 [⟨4, 1, 5⟩] []
  exact h.2.2.2 _ (by decide)

/-! ### The draw pass of `container.rs`.

`Value<T>` (from `reactivity.rs`) is a constant or a boxed `dyn LazyValue`,
embedded by its `eval` function; `Layout` (from `component.rs`) holds the
five reactive fields; the `View` is the state machine implemented by
`WgpuView` in `wgpu_backend.rs` (a stack of viewport rectangles).  The
`.unwrap()` calls of `ContainerLike::draw` are panics, modelled as `none`. -/

/-- `Orientation` from `component.rs` (`Horizontal` is the default). -/
inductive Orientation where
  | Vertical : Orientation
  | Horizontal : Orientation
deriving DecidableEq, Repr

/-- `Bounds` from `unison-backend/src/types.rs`. -/
structure Bounds where
  top : Nat
  left : Nat
  bottom : Nat
  right : Nat
deriving DecidableEq, Repr

def Bounds.new (t l b r : Nat) : Bounds := ⟨t, l, b, r⟩

/-- `Value<T>`: either a constant or a boxed lazy value, the latter embedded
by its `eval` function. -/
inductive Value (α : Type) where
  | Const : α → Value α
  | Lazy : (StateM → Option α) → Value α

def Value.eval {α : Type} : Value α → StateM → Option α
  | .Const v, _ => some v
  | .Lazy f, s => f s

/-- `Layout` from `component.rs`: five independently reactive fields. -/
structure Layout where
  flex : Value Nat
  margin : Value Bounds
  padding : Value Bounds
  stack_orientation : Value Orientation
  stack_spacing : Value Nat

def Layout.get_flex (l : Layout) (s : StateM) : Option Nat := l.flex.eval s
def Layout.get_margin (l : Layout) (s : StateM) : Option Bounds :=
  l.margin.eval s
def Layout.get_padding (l : Layout) (s : StateM) : Option Bounds :=
  l.padding.eval s
def Layout.get_stack_orientation (l : Layout) (s : StateM) :
    Option Orientation := l.stack_orientation.eval s
def Layout.get_stack_spacing (l : Layout) (s : StateM) : Option Nat :=
  l.stack_spacing.eval s

/-- `Layout::new` / `Layout::default`. -/
def Layout.new : Layout :=
  ⟨.Const 1, .Const (Bounds.new 0 0 0 0), .Const (Bounds.new 0 0 0 0),
   .Const .Horizontal, .Const 0⟩

/-- `WgpuViewState`: one viewport rectangle. -/
structure ViewState where
  pos : Nat × Nat
  size : Nat × Nat
deriving DecidableEq, Repr

def ViewState.new (window_size : Nat × Nat) : ViewState :=
  ⟨(0, 0), window_size⟩

/-- `WgpuView`: the window size and the stack of viewport states (head =
top; the stack is never empty). -/
structure View where
  window_size : Nat × Nat
  stack : List ViewState
deriving DecidableEq, Repr

def View.get_state (v : View) : ViewState :=
  v.stack.headD (ViewState.new v.window_size)

def View.push (v : View) : View := { v with stack := v.get_state :: v.stack }

/-- `restore`: pop; if the stack empties, re-seed with a full-window state. -/
def View.restore (v : View) : View :=
  let s' := v.stack.tail
  if s' = [] then { v with stack := [ViewState.new v.window_size] }
  else { v with stack := s' }

def View.viewport_size (v : View) : Nat × Nat := v.get_state.size

def View.set_top (v : View) (st : ViewState) : View :=
  { v with stack := st :: v.stack.tail }

def View.set_viewport_horizontal (v : View) (offset width : Nat) : View :=
  let st := v.get_state
  v.set_top ⟨(st.pos.1 + offset, st.pos.2), (width, st.size.2)⟩

def View.set_viewport_vertical (v : View) (offset height : Nat) : View :=
  let st := v.get_state
  v.set_top ⟨(st.pos.1, st.pos.2 + offset), (st.size.1, height)⟩

/-- `apply_bounds`: shift the origin by (left, top) and shrink the size by
the horizontal/vertical insets (`u32` subtractions, truncated). -/
def View.apply_bounds (v : View) (b : Bounds) : View :=
  let st := v.get_state
  v.set_top ⟨(st.pos.1 + b.left, st.pos.2 + b.top),
    (st.size.1 - (b.left + b.right), st.size.2 - (b.top + b.bottom))⟩

mutual

/-- A built `ComponentContainer<T>`: the resolved `Layout`, the component's
own `draw` (user code, embedded as a `View` transformer), and the contained
child. -/
inductive CompT where
  | node : Layout → (View → View) → ChildT → CompT

/-- The contained child: `()`, a single nested container, or a
macro-generated tuple of containers. -/
inductive ChildT where
  | empty : ChildT
  | single : CompT → ChildT
  | tuple : CompList → ChildT

inductive CompList where
  | nil : CompList
  | cons : CompT → CompList → CompList

end

def CompT.layoutOf : CompT → Layout
  | .node lay _ _ => lay

/-- The per-sibling `$name.layout.get_flex(state).unwrap()` collection at
the top of the tuple draw (a `none` is the panic of the first failing
unwrap). -/
def collectFlex : CompList → StateM → Option (List Nat)
  | .nil, _ => some []
  | .cons c rest, s =>
    match c.layoutOf.get_flex s with
    | none => none
    | some f => (collectFlex rest s).map (f :: ·)

/-! ### The stack-distribution algorithm of `impl_tuple_container`
(`container.rs`).  The per-sibling loop computes, along the orientation
axis, `el_size = (size_per_count * c as f32) as u32` for every sibling and
overrides the last one with `size - offset`; `offset` advances by
`el_size + spacing` after each sibling.  The sizes depend only on the axis
extent, the spacing and the flex weights, so they are modelled as a pure
function.  `f32` arithmetic is modelled as exact rational arithmetic, and
the `as u32` cast of a nonnegative float is `Int.floor`/`Int.toNat`;
`u32` subtractions that would underflow (a debug panic) yield `none`. -/

/-- The loop body of `impl_tuple_container`'s draw, restricted to the
computed `el_size`s: `offset` is the running offset, the list the remaining
flex counts.  The last sibling gets `size - offset` (checked subtraction);
every other sibling gets `(spc * c as f32) as u32`. -/
def distLoop (size spacing : Nat) (spc : ℚ) : Nat → List Nat → Option (List Nat)
  | _offset, [] => some []
  | offset, [_c] => if size < offset then none else some [size - offset]
  | offset, c :: c2 :: cs =>
    let el := (⌊spc * (c : ℚ)⌋).toNat
    (distLoop size spacing spc (offset + el + spacing) (c2 :: cs)).map (el :: ·)

/-- The sizes allocated along the orientation axis by the draw loop for a
nonempty sibling group with flex weights `counts`: `spacers = n - 1`,
`component_space = size - spacers * spacing` (checked `u32` subtraction),
`size_per_count = component_space as f32 / count as f32`. -/
def stackSizes (size spacing : Nat) (counts : List Nat) : Option (List Nat) :=
  let count := counts.sum
  let spacers := counts.length - 1
  if size < spacers * spacing then none
  else
    let component_space := size - spacers * spacing
    let size_per_count : ℚ := (component_space : ℚ) / (count : ℚ)
    distLoop size spacing size_per_count 0 counts

example : stackSizes 100 10 [1, 1, 2] = some [20, 20, 40] := by
  with_unfolding_all rfl
example : stackSizes 100 10 [1, 1, 3] = some [16, 16, 48] := by
  with_unfolding_all rfl
example : stackSizes 10 0 [3, 1] = some [7, 3] := by
  with_unfolding_all rfl

theorem distLoop_length (size spacing : Nat) (spc : ℚ) :
    ∀ (cs : List Nat) (offset : Nat) (l : List Nat),
      distLoop size spacing spc offset cs = some l → l.length = cs.length := by
  intro cs
  induction cs with
  | nil =>
    intro offset l h
    simp only [distLoop, Option.some_inj] at h
    simp [← h]
  | cons c tail ih =>
    cases tail with
    | nil =>
      intro offset l h
      simp only [distLoop] at h
      split at h
      · cases h
      · simp [← Option.some_inj.mp h]
    | cons c2 cs2 =>
      intro offset l h
      simp only [distLoop, Option.map_eq_some'] at h
      obtain ⟨l', hl', rfl⟩ := h
      simp [ih _ _ hl']

theorem distLoop_last (size spacing : Nat) (spc : ℚ) :
    ∀ (cs : List Nat) (offset : Nat) (l : List Nat),
      distLoop size spacing spc offset cs = some l → cs ≠ [] →
      l.getLast? =
        some (size - (offset + l.dropLast.sum + spacing * (cs.length - 1))) := by
  intro cs
  induction cs with
  | nil => intro _ _ _ hne; exact absurd rfl hne
  | cons c tail ih =>
    cases tail with
    | nil =>
      intro offset l h _
      simp only [distLoop] at h
      split at h
      · cases h
      · rw [← Option.some_inj.mp h]
        simp
    | cons c2 cs2 =>
      intro offset l h _
      simp only [distLoop, Option.map_eq_some'] at h
      obtain ⟨l', hl', rfl⟩ := h
      have hlen : l'.length = (c2 :: cs2).length :=
        distLoop_length size spacing spc _ _ _ hl'
      have hne' : l' ≠ [] := by
        intro hemp; rw [hemp] at hlen; simp at hlen
      have hih := ih _ _ hl' (by simp)
      obtain ⟨x, xs, rfl⟩ := List.exists_cons_of_ne_nil hne'
      rw [List.getLast?_cons_cons, hih]
      congr 1
      have hdl : ((⌊spc * (c : ℚ)⌋.toNat :: x :: xs).dropLast).sum
          = ⌊spc * (c : ℚ)⌋.toNat + ((x :: xs).dropLast).sum := by
        simp
      rw [hdl]
      simp only [List.length_cons, Nat.add_sub_cancel]
      ring_nf

theorem distLoop_get (size spacing : Nat) (spc : ℚ) :
    ∀ (cs : List Nat) (offset : Nat) (l : List Nat) (i : Nat),
      distLoop size spacing spc offset cs = some l → i + 1 < cs.length →
      l.get? i = some ((⌊spc * (cs.getD i 0 : ℚ)⌋).toNat) := by
  intro cs
  induction cs with
  | nil => intro _ _ i _ hi; simp at hi
  | cons c tail ih =>
    cases tail with
    | nil => intro _ _ i _ hi; simp at hi
    | cons c2 cs2 =>
      intro offset l i h hi
      simp only [distLoop, Option.map_eq_some'] at h
      obtain ⟨l', hl', rfl⟩ := h
      cases i with
      | zero => simp
      | succ j =>
        have := ih _ _ j hl' (by simpa using hi)
        simpa using this

theorem distLoop_isSome (size spacing : Nat) (spc : ℚ) (hspc : 0 ≤ spc) :
    ∀ (cs : List Nat) (offset : Nat), cs ≠ [] →
      ((offset : ℚ) + spc * (cs.dropLast.sum : ℚ)
        + ((spacing * (cs.length - 1) : ℕ) : ℚ) ≤ (size : ℚ)) →
      (distLoop size spacing spc offset cs).isSome := by
  intro cs
  induction cs with
  | nil => intro _ hne; exact absurd rfl hne
  | cons c tail ih =>
    cases tail with
    | nil =>
      intro offset _ hle
      have : (offset : ℚ) ≤ (size : ℚ) := by simpa using hle
      have hos : offset ≤ size := by exact_mod_cast this
      simp [distLoop, Nat.not_lt.mpr hos]
    | cons c2 cs2 =>
      intro offset _ hle
      simp only [distLoop, Option.isSome_map']
      apply ih _ (by simp)
      have hel : ((⌊spc * (c : ℚ)⌋.toNat : ℚ)) ≤ spc * (c : ℚ) := by
        have h0 : (0 : ℚ) ≤ spc * (c : ℚ) := by positivity
        have hnn : (0 : ℤ) ≤ ⌊spc * (c : ℚ)⌋ := Int.floor_nonneg.mpr h0
        have h1 : ((⌊spc * (c : ℚ)⌋.toNat : ℚ)) = ((⌊spc * (c : ℚ)⌋ : ℤ) : ℚ) := by
          exact_mod_cast congrArg (Int.cast : ℤ → ℚ) (Int.toNat_of_nonneg hnn)
        rw [h1]
        exact Int.floor_le _
      have hsum : (c :: c2 :: cs2).dropLast.sum = c + (c2 :: cs2).dropLast.sum := by
        simp
      have hsp : spacing * ((c :: c2 :: cs2).length - 1)
          = spacing + spacing * ((c2 :: cs2).length - 1) := by
        simp only [List.length_cons, Nat.add_sub_cancel]
        ring_nf
      rw [hsum, hsp] at hle
      push_cast at hle ⊢
      nlinarith [hel, hle]

mutual

/-- `ContainerLike::draw` for `ComponentContainer<T>`: apply the margin
(`.unwrap()`), draw the component itself, apply the padding (`.unwrap()`),
then draw the child with this node's layout as the parent layout.  A `none`
result is the panic of a failed unwrap somewhere in the pass. -/
def CompT.draw : CompT → StateM → Layout → View → Option View
  | .node lay d child, s, _pl, v =>
    match lay.get_margin s with
    | none => none
    | some m =>
      let v1 := d (v.apply_bounds m)
      match lay.get_padding s with
      | none => none
      | some p => ChildT.draw child s lay (v1.apply_bounds p)

/-- `ContainerLike::draw` for `()` (no-op) and for the macro-generated
tuples (flex collection, orientation/viewport/spacing, sizes, then the
per-sibling loop). -/
def ChildT.draw : ChildT → StateM → Layout → View → Option View
  | .empty, _, _, v => some v
  | .single c, s, pl, v => c.draw s pl v
  | .tuple cs, s, pl, v =>
    match collectFlex cs s with
    | none => none
    | some counts =>
      match pl.get_stack_orientation s with
      | none => none
      | some orient =>
        let size0 := v.viewport_size
        let size := match orient with
          | .Horizontal => size0.1
          | .Vertical => size0.2
        match pl.get_stack_spacing s with
        | none => none
        | some spacing =>
          match stackSizes size spacing counts with
          | none => none
          | some els => drawSibs cs els orient spacing s pl v 0

/-- The per-sibling loop body: push, narrow the viewport along the
orientation axis to the allocated sub-region, draw the sibling, restore,
and advance the running offset by the allocated size plus one spacing. -/
def drawSibs : CompList → List Nat → Orientation → Nat → StateM → Layout →
    View → Nat → Option View
  | .nil, _, _, _, _, _, v, _ => some v
  | .cons c cs, els, orient, spacing, s, pl, v, offset =>
    let el := els.headD 0
    let v1 := v.push
    let v2 := match orient with
      | .Horizontal => v1.set_viewport_horizontal offset el
      | .Vertical => v1.set_viewport_vertical offset el
    match c.draw s pl v2 with
    | none => none
    | some v3 =>
      drawSibs cs els.tail orient spacing s pl v3.restore
        (offset + el + spacing)

end

/-- Claim C4: whenever the stack distribution succeeds, the last sibling's
size along the orientation axis is the axis extent minus everything consumed
so far — the sizes of the preceding `n-1` siblings plus `n-1` spacing
units — and in particular extent 100, weights {1,1,2}, spacing 10 yields
sizes 20, 20 and 40 = 100 - (20+10+20+10). -/
theorem c4_last_sibling_absorbs_remainder :
    (∀ (size spacing : Nat) (ws l : List Nat), ws ≠ [] →
      stackSizes size spacing ws = some l →
      l.getLast? = some (size - (l.dropLast.sum + (ws.length - 1) * spacing))) ∧
    stackSizes 100 10 [1, 1, 2] = some [20, 20, 40] := by
  constructor
  · intro size spacing ws l hne h
    simp only [stackSizes] at h
    split at h
    · cases h
    · have := distLoop_last size spacing _ ws 0 l h hne
      rw [this]
      congr 2
      ring_nf
  · with_unfolding_all rfl

/-- Witness for C4 at the spec's second example: extent 100, weights
{1,1,3}, spacing 10: the last sibling gets 100 - (16+10+16+10) = 48. -/
theorem c4_witness :
    ([16, 16, 48] : List Nat).getLast? =
      some (100 - (([16, 16, 48] : List Nat).dropLast.sum
        + (([1, 1, 3] : List Nat).length - 1) * 10)) := by
  exact c4_last_sibling_absorbs_remainder.1 100 10 [1, 1, 3] [16, 16, 48]
    (by simp) (by with_unfolding_all rfl)

/-- Claim C5 as stated is false: the code converts
`size_per_count * c as f32` to `u32` with an `as` cast, which truncates
toward zero, not `round`.  Concretely with axis extent 10, spacing 0 and
weights {3, 1} (all `f32` computations exact): per-unit = 10/4 = 2.5, the
first sibling's claimed size is `round(2.5 * 3) = round(7.5) = 8`, but the
code allocates `trunc(7.5) = 7`. -/
theorem c5_counterexample :
    stackSizes 10 0 [3, 1] = some [7, 3] ∧
    round ((10 : ℚ) / 4 * 3) = 8 ∧
    stackSizes 10 0 [3, 1] ≠ some [(round ((10 : ℚ) / 4 * 3)).toNat, 3] := by
  refine ⟨by with_unfolding_all rfl, ?_, ?_⟩
  · rw [round_eq]; norm_num
  · intro h
    rw [show round ((10 : ℚ) / 4 * 3) = 8 from by rw [round_eq]; norm_num] at h
    have h2 : stackSizes 10 0 [3, 1] = some [7, 3] := by with_unfolding_all rfl
    rw [h2] at h
    simp at h

/-- Claim C5, amended: every sibling except the last is allocated
`trunc(per_unit_size * weight)` — the fractional product truncated toward
zero (`as u32`), not rounded to nearest — where
`per_unit_size = (extent - (n-1)*spacing) / total_weight`. -/
theorem c5_nonlast_sibling_truncated_share :
    ∀ (size spacing : Nat) (ws l : List Nat) (i : Nat),
      stackSizes size spacing ws = some l → i + 1 < ws.length →
      l.get? i = some ((⌊((size - (ws.length - 1) * spacing : Nat) : ℚ)
        / (ws.sum : ℚ) * (ws.getD i 0 : ℚ)⌋).toNat) := by
  intro size spacing ws l i h hi
  simp only [stackSizes] at h
  split at h
  · cases h
  · have := distLoop_get size spacing _ ws 0 l i h hi
    rw [this]

/-- Witness for C5's amended theorem: at extent 10, spacing 0, weights
{3,1}, the first sibling gets `trunc(2.5 * 3) = 7`. -/
theorem c5_witness :
    ([7, 3] : List Nat).get? 0 =
      some ((⌊((10 - (([3, 1] : List Nat).length - 1) * 0 : Nat) : ℚ)
        / (([3, 1] : List Nat).sum : ℚ) * (([3, 1] : List Nat).getD 0 0 : ℚ)⌋).toNat) := by
  exact c5_nonlast_sibling_truncated_share 10 0 [3, 1] [7, 3] 0
    (by with_unfolding_all rfl) (by simp)

/-- Claim C10: the distribution's `u32` subtractions are total exactly under
the precondition `extent ≥ (n-1) * spacing`: under it (and a positive total
weight, so that the per-unit division is meaningful) the computation
succeeds — in particular the final `size - offset` for the last sibling
never underflows — while `extent < (n-1) * spacing` underflows the
`component_space` subtraction immediately. -/
theorem c10_distribution_total_iff_spacing_fits :
    ∀ (size spacing : Nat) (ws : List Nat), ws ≠ [] → 0 < ws.sum →
      (((ws.length - 1) * spacing ≤ size →
        (stackSizes size spacing ws).isSome) ∧
       (size < (ws.length - 1) * spacing →
        stackSizes size spacing ws = none)) := by
  intro size spacing ws hne hsum
  constructor
  · intro hfit
    unfold stackSizes
    rw [if_neg (by omega)]
    apply distLoop_isSome size spacing _ (by positivity) ws 0 hne
    have hspos : (0 : ℚ) < (ws.sum : ℚ) := by exact_mod_cast hsum
    have hdrop : (ws.dropLast.sum : ℚ) ≤ (ws.sum : ℚ) := by
      have h2 : ws.dropLast.sum ≤ ws.sum := by
        conv_rhs => rw [← List.dropLast_append_getLast hne]
        simp
      exact_mod_cast h2
    have hspc : ((size - (ws.length - 1) * spacing : Nat) : ℚ) / (ws.sum : ℚ)
        * (ws.dropLast.sum : ℚ)
        ≤ ((size - (ws.length - 1) * spacing : Nat) : ℚ) := by
      rw [div_mul_eq_mul_div, div_le_iff₀ hspos]
      have hcs : (0 : ℚ) ≤ ((size - (ws.length - 1) * spacing : Nat) : ℚ) := by
        positivity
      nlinarith [hdrop, hcs]
    rw [show spacing * (ws.length - 1) = (ws.length - 1) * spacing from
      Nat.mul_comm _ _]
    have hsplit : ((size : ℚ))
        = ((size - (ws.length - 1) * spacing : Nat) : ℚ)
          + (((ws.length - 1) * spacing : Nat) : ℚ) := by
      have h2 : size
          = (size - (ws.length - 1) * spacing) + (ws.length - 1) * spacing := by
        omega
      exact_mod_cast congrArg (Nat.cast : Nat → ℚ) h2
    rw [hsplit]
    linarith [hspc]
  · intro hlt
    unfold stackSizes
    rw [if_pos (by omega)]

/-- Witness for C10: weights {1,1,2}, spacing 10 — for extent 100 the
distribution succeeds; for extent 15 < 2*10 it underflows. -/
theorem c10_witness :
    ((stackSizes 100 10 [1, 1, 2]).isSome ∧
     stackSizes 15 10 [1, 1, 2] = none) := by
  constructor
  · exact (c10_distribution_total_iff_spacing_fits 100 10 [1, 1, 2]
      (by simp) (by simp)).1 (by simp)
  · exact (c10_distribution_total_iff_spacing_fits 15 10 [1, 1, 2]
      (by simp) (by simp)).2 (by simp)

/-- A `Layout` whose margin is bound to a handle of a foreign (or cleared
and replaced) arena: its evaluation fails. -/
def badMarginLayout : Layout :=
  { Layout.new with
    margin := .Lazy (fun s =>
      (s.arena.get ⟨999, 0, 0⟩).map (fun _ => Bounds.new 1 1 1 1)) }

def c9state : StateM := ⟨(Arena.new 16 0).1, [], false⟩

def c9view : View := ⟨(100, 50), [ViewState.new (100, 50)]⟩

/-- Claim C9 as stated is false: a failing `Value` evaluation during the
draw pass is *not* a silent internal no-op.  The margin of this node is
bound to an invalid handle, its evaluation returns `None`, and
`ContainerLike::draw` calls `.unwrap()` on it, so the draw pass panics
(modelled as `none`) instead of skipping the value and carrying on. -/
theorem c9_counterexample :
    badMarginLayout.get_margin c9state = none ∧
    CompT.draw (CompT.node badMarginLayout id ChildT.empty) c9state
      Layout.new c9view = none := by
  constructor
  · rfl
  · rfl

/-- Claim C9, amended: a failing `Value`/`Binding` evaluation during a draw
pass does stop everything downstream, but by panicking: the draw code
unwraps every layout-field evaluation (margin, padding, flex, orientation),
so the first failure aborts the entire pass — an end-user-facing crash, not
a silent no-op. -/
theorem c9_draw_panics_on_eval_failure :
    ∀ (lay : Layout) (d : View → View) (child : ChildT) (s : StateM)
      (pl : Layout) (v : View) (cs : CompList),
      (lay.get_margin s = none →
        CompT.draw (CompT.node lay d child) s pl v = none) ∧
      (∀ m, lay.get_margin s = some m → lay.get_padding s = none →
        CompT.draw (CompT.node lay d child) s pl v = none) ∧
      (collectFlex cs s = none →
        ChildT.draw (ChildT.tuple cs) s pl v = none) ∧
      (∀ counts, collectFlex cs s = some counts →
        pl.get_stack_orientation s = none →
        ChildT.draw (ChildT.tuple cs) s pl v = none) := by
  intro lay d child s pl v cs
  refine ⟨?_, ?_, ?_, ?_⟩
  · intro h
    simp [CompT.draw, h]
  · intro m hm hp
    simp [CompT.draw, hm, hp]
  · intro h
    simp [ChildT.draw, h]
  · intro counts hc ho
    simp [ChildT.draw, hc, ho]

/-- Witness for the amended C9 at a concrete input: the draw pass over a
node whose margin is bound to an invalid handle aborts. -/
theorem c9_witness :
    CompT.draw (CompT.node badMarginLayout id (ChildT.single
      (CompT.node Layout.new id ChildT.empty))) c9state Layout.new c9view
      = none := by
  exact (c9_draw_panics_on_eval_failure badMarginLayout id
    (ChildT.single (CompT.node Layout.new id ChildT.empty))
    c9state Layout.new c9view CompList.nil).1 (by rfl)

end Unison
